import Mathlib

/-!
Verification of the Password-Strength-Analyzer repository.

The definitions below are a shallow embedding of `src/entropy_calculator.py`
and `src/pattern_detector.py`.  Passwords are modelled as `List Char`
(a Python string is a sequence of code points).  Python's arbitrary-precision
`int` becomes `Nat`/`Int`; Python `float` arithmetic is idealised over `ℝ`,
with `round(x, k)` modelled as rounding to the nearest multiple of `10⁻ᵏ`
(Python uses round-half-to-even; the two agree except at exact half-way ties,
which no statement in this file touches).  Python regex character classes
`[a-z]`, `[A-Z]`, `\d`, `[^a-zA-Z0-9]` are modelled with the ASCII
`Char.isLower`/`Char.isUpper`/`Char.isDigit`/`Char.isAlphanum` predicates
(Python's `\d` additionally matches non-ASCII Unicode digits; every password
appearing in a statement here is ASCII, where the two coincide).
A method that mutates `self.detected_patterns` is embedded as a function that
also returns the list of messages it appends.  Code that can raise an
exception (`KeyError`) is embedded with `Except String`.
-/

namespace PasswordAnalyzer

/-- Python `round(x, 2)`: round to the nearest hundredth. -/
noncomputable def round2 (x : ℝ) : ℝ := (round (100 * x) : ℤ) / 100

/-- Python `round(x, 1)`: round to the nearest tenth. -/
noncomputable def round1 (x : ℝ) : ℝ := (round (10 * x) : ℤ) / 10

/-- Python `int(c)` for a single character: its decimal digit value
(as a Python `int`, so the backward-sequence subtractions below may go
negative; hence `ℤ`). -/
def digitVal (c : Char) : ℤ := (c.toNat : ℤ) - 48

/-- Python `ord(c)`, as a Python `int`. -/
def ordZ (c : Char) : ℤ := (c.toNat : ℤ)

/-- Python substring containment `needle in hay` for strings. -/
def containsSub (needle hay : List Char) : Bool :=
  hay.tails.any (fun t => needle.isPrefixOf t)

/-- Python `hay.index(needle)`: index of the first occurrence of the
substring `needle` in `hay`.  (Python raises `ValueError` when absent; the
source only calls `.index` on substrings it has just found, and in that case
this function returns the same index.) -/
def indexOfSub (needle : List Char) : List Char → ℕ
  | [] => 0
  | c :: rest => if needle.isPrefixOf (c :: rest) then 0 else indexOfSub needle rest + 1

/-! ## EntropyCalculator  (src/entropy_calculator.py) -/

/-- Class constant `LOWERCASE_POOL`. -/
def LOWERCASE_POOL : ℕ := 26

/-- Class constant `UPPERCASE_POOL`. -/
def UPPERCASE_POOL : ℕ := 26

/-- Class constant `DIGITS_POOL`. -/
def DIGITS_POOL : ℕ := 10

/-- Class constant `SPECIAL_POOL`. -/
def SPECIAL_POOL : ℕ := 32

/-- `EntropyCalculator.calculate_shannon_entropy`.
`Counter(password)` holds one entry per distinct character (`List.dedup`),
whose count is `List.count`; the loop computes `-Σ p·log2(p)` and the result
is `round(entropy, 2)`. -/
noncomputable def calculate_shannon_entropy (password : List Char) : ℝ :=
  if password = [] then 0
  else
    round2 (-(password.dedup.map (fun c =>
      ((password.count c : ℝ) / password.length) *
        Real.logb 2 ((password.count c : ℝ) / password.length))).sum)

/-- `EntropyCalculator._calculate_pool_size`: adds the four class pool sizes
for the character classes present (`[a-z]`, `[A-Z]`, `\d`, `[^a-zA-Z0-9]`). -/
def calculate_pool_size (password : List Char) : ℕ :=
  (if password.any Char.isLower then LOWERCASE_POOL else 0) +
  (if password.any Char.isUpper then UPPERCASE_POOL else 0) +
  (if password.any Char.isDigit then DIGITS_POOL else 0) +
  (if password.any (fun c => !c.isAlphanum) then SPECIAL_POOL else 0)

/-- The dictionary returned by `calculate_password_entropy`.  The `length`
key is present only on the non-empty branch of the source, hence `Option`:
`none` models an absent key. -/
structure PasswordEntropyResult where
  pool_size : ℕ
  entropy_bits : ℝ
  combinations : ℕ
  length : Option ℕ

/-- `EntropyCalculator.calculate_password_entropy`.  The empty-password
branch returns a dictionary with only `pool_size`, `entropy_bits` and
`combinations` keys; the main branch additionally carries `length`.
`combinations = pool_size ** length` is Python arbitrary-precision `int`
arithmetic, i.e. exact `Nat` exponentiation. -/
noncomputable def calculate_password_entropy (password : List Char) :
    PasswordEntropyResult :=
  if password = [] then
    { pool_size := 0, entropy_bits := 0, combinations := 0, length := none }
  else
    let pool_size := calculate_pool_size password
    let length := password.length
    { pool_size := pool_size
      entropy_bits := round2 (length * Real.logb 2 pool_size)
      combinations := pool_size ^ length
      length := some length }

/-- `EntropyCalculator.calculate_ideal_entropy`. -/
noncomputable def calculate_ideal_entropy (length : ℕ)
    (use_all_pools : Bool := true) : ℝ :=
  let pool_size :=
    if use_all_pools then LOWERCASE_POOL + UPPERCASE_POOL + DIGITS_POOL + SPECIAL_POOL
    else LOWERCASE_POOL + UPPERCASE_POOL
  round2 (length * Real.logb 2 pool_size)

/-- `EntropyCalculator.get_entropy_strength`: the five-band if/elif chain. -/
noncomputable def get_entropy_strength (entropy_bits : ℝ) : String :=
  if entropy_bits < 28 then "Very Weak"
  else if entropy_bits < 36 then "Weak"
  else if entropy_bits < 60 then "Reasonable"
  else if entropy_bits < 128 then "Strong"
  else "Very Strong"

/-- The dictionary built by `analyze_complete` (and extended by
`compare_passwords` with the `password_preview` key, hence the `Option`:
`none` models the key being absent).  The `crack_time_estimates` entry is a
dictionary of display strings produced by floating-point `"%.1f"`-style
formatting; no property in this development depends on it and it is not
modelled. -/
structure AnalyzeReport where
  shannon_entropy : ℝ
  password_entropy : ℝ
  ideal_entropy : ℝ
  efficiency_percentage : ℝ
  strength_rating : String
  pool_size : ℕ
  length : ℕ
  total_combinations : ℕ
  password_preview : Option (List Char)

/-- `EntropyCalculator.analyze_complete` (the pure result; the append to
`self.calculation_history` is caller-side state that no result field
depends on). -/
noncomputable def analyze_complete (password : List Char) : AnalyzeReport :=
  let shannon := calculate_shannon_entropy password
  let password_entropy := calculate_password_entropy password
  let strength := get_entropy_strength password_entropy.entropy_bits
  let ideal := calculate_ideal_entropy password.length
  let efficiency :=
    if ideal > 0 then password_entropy.entropy_bits / ideal * 100 else 0
  { shannon_entropy := shannon
    password_entropy := password_entropy.entropy_bits
    ideal_entropy := ideal
    efficiency_percentage := round1 efficiency
    strength_rating := strength
    pool_size := password_entropy.pool_size
    length := password.length
    total_combinations := password_entropy.combinations
    password_preview := none }

/-- The preview string `pwd[:3] + '*' * (len(pwd) - 3)` attached by
`compare_passwords`.  Python's `'*' * n` is empty for `n ≤ 0`, which is
exactly `Nat` subtraction composed with `List.replicate`. -/
def password_preview_of (pwd : List Char) : List Char :=
  pwd.take 3 ++ List.replicate (pwd.length - 3) '*'

/-- `EntropyCalculator.compare_passwords`: analyze each password, attach the
masked preview, and `list.sort(key=password_entropy, reverse=True)` — a
stable sort descending by the `password_entropy` value. -/
noncomputable def compare_passwords (passwords : List (List Char)) :
    List AnalyzeReport :=
  let results := passwords.map (fun pwd =>
    { analyze_complete pwd with password_preview := some (password_preview_of pwd) })
  results.mergeSort (fun a b => decide (b.password_entropy ≤ a.password_entropy))

/-! ## PatternDetector  (src/pattern_detector.py) -/

/-- Class constant `KEYBOARD_ROWS`. -/
def KEYBOARD_ROWS : List (List Char) :=
  ["qwertyuiop".toList, "asdfghjkl".toList, "zxcvbnm".toList,
   "1234567890".toList, "!@#$%^&*()".toList]

/-- Class constant `KEYBOARD_WALKS`. -/
def KEYBOARD_WALKS : List (List Char) :=
  ["qwerty".toList, "asdfgh".toList, "zxcvbn".toList,
   "qaz".toList, "wsx".toList, "edc".toList, "rfv".toList, "tgb".toList,
   "yhn".toList, "ujm".toList, "ik".toList, "ol".toList, "p".toList,
   "1qaz".toList, "2wsx".toList, "3edc".toList, "4rfv".toList, "5tgb".toList,
   "6yhn".toList, "7ujm".toList, "8ik".toList, "9ol".toList, "0p".toList]

/-- Class constant `LEET_SUBSTITUTIONS` (a dict; Python ≥3.7 iterates it in
insertion order). -/
def LEET_SUBSTITUTIONS : List (Char × List Char) :=
  [('a', ['4', '@']), ('e', ['3']), ('i', ['1', '!']), ('o', ['0']),
   ('s', ['5', '$']), ('t', ['7']), ('l', ['1']), ('g', ['9']),
   ('b', ['8']), ('z', ['2'])]

/-- Class constant `COMMON_PATTERNS`. -/
def COMMON_PATTERNS : List (List Char) :=
  ["password".toList, "admin".toList, "welcome".toList, "login".toList,
   "user".toList, "letmein".toList, "monkey".toList, "dragon".toList,
   "master".toList, "sunshine".toList]

/-- One entry of the `found_patterns` list of `detect_keyboard_patterns`.
`keyboard_row` entries carry a `position` key, `keyboard_walk` and
`reversed_keyboard` entries do not (hence `Option`). -/
structure KeyboardFinding where
  type : String
  pattern : List Char
  length : ℕ
  position : Option ℕ
deriving DecidableEq

/-- The dictionary returned by `detect_keyboard_patterns`. -/
structure KeyboardResult where
  found : Bool
  patterns : List KeyboardFinding
  count : ℕ
deriving DecidableEq

/-- The `keyboard_row` scan of one row: `for length in range(3, len(row)+1):
for start in range(len(row)-length+1): ...` testing each contiguous substring
of the row for containment in the lowercased password. -/
def row_findings (pl row : List Char) : List KeyboardFinding :=
  (List.range' 3 (row.length + 1 - 3)).flatMap (fun len =>
    (List.range (row.length - len + 1)).filterMap (fun start =>
      let pattern := (row.drop start).take len
      if containsSub pattern pl && decide (3 ≤ pattern.length) then
        some { type := "keyboard_row", pattern := pattern,
               length := pattern.length, position := some (indexOfSub pattern pl) }
      else none))

/-- The `keyboard_walk` scan: each named walk tested for containment. -/
def walk_findings (pl : List Char) : List KeyboardFinding :=
  KEYBOARD_WALKS.filterMap (fun walk =>
    if containsSub walk pl then
      some { type := "keyboard_walk", pattern := walk,
             length := walk.length, position := none }
    else none)

/-- The `reversed_keyboard` scan: substrings of each reversed row. -/
def rev_findings (pl : List Char) : List KeyboardFinding :=
  KEYBOARD_ROWS.flatMap (fun row =>
    let reversed_row := row.reverse
    (List.range' 3 (reversed_row.length + 1 - 3)).flatMap (fun len =>
      (List.range (reversed_row.length - len + 1)).filterMap (fun start =>
        let pattern := (reversed_row.drop start).take len
        if containsSub pattern pl && decide (3 ≤ pattern.length) then
          some { type := "reversed_keyboard", pattern := pattern,
                 length := pattern.length, position := none }
        else none)))

/-- `PatternDetector.detect_keyboard_patterns`, paired with the messages it
appends to `self.detected_patterns` (the reversed-row branch appends none). -/
def detect_keyboard_patterns (password : List Char) :
    KeyboardResult × List String :=
  let password_lower := password.map Char.toLower
  let rowsF := KEYBOARD_ROWS.flatMap (row_findings password_lower)
  let walksF := walk_findings password_lower
  let found_patterns := rowsF ++ walksF ++ rev_findings password_lower
  ({ found := decide (0 < found_patterns.length)
     patterns := found_patterns
     count := found_patterns.length },
   rowsF.map (fun f => "Keyboard row: " ++ String.mk f.pattern) ++
     walksF.map (fun f => "Keyboard walk: " ++ String.mk f.pattern))

/-- One entry of the `found_sequences` list of `detect_sequential_patterns`. -/
structure SeqFinding where
  type : String
  sequence : List Char
  length : ℕ
  position : ℕ
deriving DecidableEq

/-- The dictionary returned by `detect_sequential_patterns`. -/
structure SequentialResult where
  found : Bool
  sequences : List SeqFinding
  count : ℕ
deriving DecidableEq

/-- The `seq_len` extension loop `while i+seq_len < n and cond(seq_len):
seq_len += 1`, with the bound `i + seq_len < n` carried as the fuel
`fuel = n - (i + k)`: the loop body keeps `fuel = n - (i + k)` invariant,
so fuel `0` is exactly the exit `i + seq_len = n`. -/
def while_ext (cond : ℕ → Bool) : ℕ → ℕ → ℕ
  | 0, k => k
  | fuel + 1, k => if cond k then while_ext cond fuel (k + 1) else k

/-- Continuation test of the forward-alphabetic extension loop at offset `k`
from start `i`: `ord(pl[i+k]) == ord(pl[i]) + k`. -/
def alpha_fwd_cont (pl : List Char) (i k : ℕ) : Bool :=
  decide (ordZ (pl.getD (i + k) ' ') = ordZ (pl.getD i ' ') + k)

/-- Continuation test of the backward-alphabetic extension loop:
`ord(pl[i+k]) == ord(pl[i]) - k`. -/
def alpha_bwd_cont (pl : List Char) (i k : ℕ) : Bool :=
  decide (ordZ (pl.getD (i + k) ' ') = ordZ (pl.getD i ' ') - k)

/-- Continuation test of the forward-numeric extension loop:
`password[i+seq_len].isdigit() and int(password[i+seq_len]) ==
int(password[i]) + seq_len`. -/
def numeric_fwd_cont (password : List Char) (i k : ℕ) : Bool :=
  (password.getD (i + k) ' ').isDigit &&
    decide (digitVal (password.getD (i + k) ' ') = digitVal (password.getD i ' ') + k)

/-- Continuation test of the backward-numeric extension loop:
`password[i+seq_len].isdigit() and int(password[i+seq_len]) ==
int(password[i]) - seq_len`. -/
def numeric_bwd_cont (password : List Char) (i k : ℕ) : Bool :=
  (password.getD (i + k) ' ').isDigit &&
    decide (digitVal (password.getD (i + k) ' ') = digitVal (password.getD i ' ') - k)

/-- Length of the maximal forward-numeric run recorded from position `i`:
`seq_len = 3` extended by the while loop. -/
def numeric_fwd_len (password : List Char) (i : ℕ) : ℕ :=
  while_ext (numeric_fwd_cont password i) (password.length - (i + 3)) 3

/-- Length of the maximal backward-numeric run recorded from position `i`. -/
def numeric_bwd_len (password : List Char) (i : ℕ) : ℕ :=
  while_ext (numeric_bwd_cont password i) (password.length - (i + 3)) 3

/-- `PatternDetector.detect_sequential_patterns`, paired with its appended
messages.  The first loop scans the lowercased password with code-point
(`ord`) comparisons; the second scans the original password with digit-value
(`int`) comparisons guarded by `isdigit`.  At each window start both the
forward and the backward test run (they cannot both fire). -/
def detect_sequential_patterns (password : List Char) :
    SequentialResult × List String :=
  let pl := password.map Char.toLower
  let n := pl.length
  let alphaF := (List.range (n - 2)).flatMap (fun i =>
    (if ordZ (pl.getD (i + 1) ' ') = ordZ (pl.getD i ' ') + 1 ∧
        ordZ (pl.getD (i + 2) ' ') = ordZ (pl.getD i ' ') + 2 then
      let seq_len := while_ext (alpha_fwd_cont pl i) (n - (i + 3)) 3
      [({ type := "alphabetic_forward", sequence := (pl.drop i).take seq_len,
          length := seq_len, position := i } : SeqFinding)]
    else []) ++
    (if ordZ (pl.getD (i + 1) ' ') = ordZ (pl.getD i ' ') - 1 ∧
        ordZ (pl.getD (i + 2) ' ') = ordZ (pl.getD i ' ') - 2 then
      let seq_len := while_ext (alpha_bwd_cont pl i) (n - (i + 3)) 3
      [({ type := "alphabetic_backward", sequence := (pl.drop i).take seq_len,
          length := seq_len, position := i } : SeqFinding)]
    else []))
  let numF := (List.range (password.length - 2)).flatMap (fun i =>
    if (password.getD i ' ').isDigit && (password.getD (i + 1) ' ').isDigit &&
        (password.getD (i + 2) ' ').isDigit then
      (if digitVal (password.getD (i + 1) ' ') = digitVal (password.getD i ' ') + 1 ∧
          digitVal (password.getD (i + 2) ' ') = digitVal (password.getD (i + 1) ' ') + 1 then
        let seq_len := numeric_fwd_len password i
        [({ type := "numeric_forward", sequence := (password.drop i).take seq_len,
            length := seq_len, position := i } : SeqFinding)]
      else []) ++
      (if digitVal (password.getD (i + 1) ' ') = digitVal (password.getD i ' ') - 1 ∧
          digitVal (password.getD (i + 2) ' ') = digitVal (password.getD (i + 1) ' ') - 1 then
        let seq_len := numeric_bwd_len password i
        [({ type := "numeric_backward", sequence := (password.drop i).take seq_len,
            length := seq_len, position := i } : SeqFinding)]
      else [])
    else [])
  let found_sequences := alphaF ++ numF
  ({ found := decide (0 < found_sequences.length)
     sequences := found_sequences
     count := found_sequences.length },
   found_sequences.map (fun f =>
     (if f.type = "alphabetic_forward" then "Alphabetic sequence: "
      else if f.type = "alphabetic_backward" then "Reverse alphabetic: "
      else if f.type = "numeric_forward" then "Numeric sequence: "
      else "Reverse numeric: ") ++ String.mk f.sequence))

/-- One entry of the `repetitions` list of `detect_repetition_patterns`:
`character_repetition` entries carry `character`/`count`,
`sequence_repetition` entries carry `sequence`/`repeat_count` (both counts
land in the `count` field here). -/
structure RepFinding where
  type : String
  character : Option Char
  sequence : Option (List Char)
  count : ℕ
  position : ℕ
deriving DecidableEq

/-- The dictionary returned by `detect_repetition_patterns`. -/
structure RepetitionResult where
  found : Bool
  repetitions : List RepFinding
  count : ℕ
deriving DecidableEq

/-- The single-character run scan: at index `i` with `char = password[i]`,
`count = 1; while i+count < n and password[i+count] == char: count += 1`
— i.e. `1 +` the run of `char` at the head of `password[i+1:]` — then jump
`i += count`. -/
def char_runs (password : List Char) : ℕ → ℕ → List RepFinding
  | 0, _ => []
  | fuel + 1, i =>
    if i < password.length then
      let c := password.getD i ' '
      let count := 1 + ((password.drop (i + 1)).takeWhile (fun x => x == c)).length
      (if 3 ≤ count then
        [({ type := "character_repetition", character := some c, sequence := none,
            count := count, position := i } : RepFinding)]
      else []) ++ char_runs password fuel (i + count)
    else []

/-- The trailing-copies loop of the repeated-sequence scan:
`while pos + seq_len <= n and password[pos:pos+seq_len] == sequence`,
counting the extra copies.  Each iteration advances `pos` by
`seq.length ≥ 2`, so fuel `password.length` never runs out before the

loop's own exit condition. -/
def copies_from (password seq : List Char) : ℕ → ℕ → ℕ
  | 0, _ => 0
  | fuel + 1, pos =>
    if pos + seq.length ≤ password.length && ((password.drop pos).take seq.length == seq) then
      copies_from password seq fuel (pos + seq.length) + 1
    else 0

/-- `PatternDetector.detect_repetition_patterns`, paired with its appended
messages.  Character runs are consumed greedily left to right (fuel
`password.length` suffices: every iteration advances `i` by `count ≥ 1`).
For each block length `seq_len in range(2, n//2 + 1)` the inner loop breaks
at the first `i` whose block immediately repeats (`List.find?`), recording
`repeat_count = 2 +` the number of further consecutive copies. -/
def detect_repetition_patterns (password : List Char) :
    RepetitionResult × List String :=
  let charF := char_runs password password.length 0
  let seqF := (List.range' 2 (password.length / 2 + 1 - 2)).filterMap (fun seq_len =>
    ((List.range (password.length - seq_len * 2 + 1)).find? (fun i =>
        (password.drop (i + seq_len)).take seq_len == (password.drop i).take seq_len)).bind
      (fun i =>
        let seq := (password.drop i).take seq_len
        let repeat_count := 2 + copies_from password seq password.length (i + seq_len * 2)
        if 2 ≤ repeat_count then
          some ({ type := "sequence_repetition", character := none, sequence := some seq,
                  count := repeat_count, position := i } : RepFinding)
        else none))
  let repetitions := charF ++ seqF
  ({ found := decide (0 < repetitions.length)
     repetitions := repetitions
     count := repetitions.length },
   repetitions.map (fun f =>
     match f.character, f.sequence with
     | some c, _ => "Repeated character: '" ++ String.mk [c] ++ "' x" ++ toString f.count
     | _, some s => "Repeated sequence: '" ++ String.mk s ++ "' x" ++ toString f.count
     | _, _ => ""))

/-- One entry of the `substitutions` diagnostic list of `detect_leet_speak`. -/
structure LeetSub where
  original : Char
  substitute : Char
deriving DecidableEq

/-- The dictionary returned by `detect_leet_speak`. -/
structure LeetResult where
  found : Bool
  leet_score : ℕ
  substitutions : List LeetSub
  strength_reduction : ℕ
deriving DecidableEq

/-- `PatternDetector.detect_leet_speak`, paired with its appended messages.
The `substitutions` list reproduces the source's malformed condition with
Python's precedence, `(char_lower in substitutes and
password[idx].isdigit()) or password[idx] in ['@', '$', '!']` where
`idx = password.lower().index(char_lower)` is the index of the *first*
occurrence.  The score tests the five character classes `[4@] 3 [1!] 0 [5$]`
on the original password. -/
def detect_leet_speak (password : List Char) : LeetResult × List String :=
  let pl := password.map Char.toLower
  let subs := pl.flatMap (fun char_lower =>
    LEET_SUBSTITUTIONS.filterMap (fun ls =>
      let orig := password.getD (pl.indexOf char_lower) ' '
      if (char_lower ∈ ls.2 ∧ orig.isDigit) ∨ orig ∈ ['@', '$', '!'] then
        some ({ original := ls.1, substitute := orig } : LeetSub)
      else none))
  let leet_score :=
    (if password.any (fun c => c == '4' || c == '@') then 1 else 0) +
    (if password.any (fun c => c == '3') then 1 else 0) +
    (if password.any (fun c => c == '1' || c == '!') then 1 else 0) +
    (if password.any (fun c => c == '0') then 1 else 0) +
    (if password.any (fun c => c == '5' || c == '$') then 1 else 0)
  let uses_leet := decide (2 ≤ leet_score)
  ({ found := uses_leet
     leet_score := leet_score
     substitutions := subs
     strength_reduction := leet_score * 5 },
   if uses_leet then ["Uses leetspeak substitutions"] else [])

/-- One entry of the `dates_found` list of `detect_date_patterns`: `year`
entries carry an integer value, `full_date` entries the matched string. -/
structure DateFinding where
  type : String
  value_year : Option ℕ
  value_str : Option (List Char)
  position : ℕ
deriving DecidableEq

/-- The dictionary returned by `detect_date_patterns`. -/
structure DateResult where
  found : Bool
  dates : List DateFinding
  count : ℕ
deriving DecidableEq

/-- `re.finditer` over a fixed-width pattern: leftmost matches, resuming
after each match (step `w`) and advancing by one character otherwise.
`fuel = n + 1` suffices: the scan position grows by at least one each step
and no match fits once `j + w > n`. -/
def re_scan (w : ℕ) (m : ℕ → Bool) (n : ℕ) : ℕ → ℕ → List ℕ
  | 0, _ => []
  | fuel + 1, j =>
    if j + w ≤ n then
      if m j then j :: re_scan w m n fuel (j + w) else re_scan w m n fuel (j + 1)
    else []

/-- Match of the year regex `(19\d{2}|20\d{2})` at a position, given the
four characters there. -/
def year_match (c0 c1 c2 c3 : Char) : Bool :=
  ((c0 == '1' && c1 == '9') || (c0 == '2' && c1 == '0')) && c2.isDigit && c3.isDigit

/-- `int` of four digit characters. -/
def four_digit_val (c0 c1 c2 c3 : Char) : ℕ :=
  (c0.toNat - 48) * 1000 + (c1.toNat - 48) * 100 + (c2.toNat - 48) * 10 + (c3.toNat - 48)

/-- Match of the month group `(0[1-9]|1[0-2])`. -/
def month2 (a b : Char) : Bool :=
  (a == '0' && '1' ≤ b && b ≤ '9') || (a == '1' && '0' ≤ b && b ≤ '2')

/-- Match of the day group `(0[1-9]|[12]\d|3[01])`. -/
def day2 (a b : Char) : Bool :=
  (a == '0' && '1' ≤ b && b ≤ '9') || ((a == '1' || a == '2') && b.isDigit) ||
    (a == '3' && (b == '0' || b == '1'))

/-- Match of `(19|20)\d{2}`. -/
def year_prefix2 (a b c d : Char) : Bool :=
  ((a == '1' && b == '9') || (a == '2' && b == '0')) && c.isDigit && d.isDigit

/-- Match of the `MMDDYYYY` regex at position `j`. -/
def mmdd_match (p : List Char) (j : ℕ) : Bool :=
  month2 (p.getD j ' ') (p.getD (j + 1) ' ') &&
  day2 (p.getD (j + 2) ' ') (p.getD (j + 3) ' ') &&
  year_prefix2 (p.getD (j + 4) ' ') (p.getD (j + 5) ' ')
    (p.getD (j + 6) ' ') (p.getD (j + 7) ' ')

/-- Match of the `DDMMYYYY` regex at position `j`. -/
def ddmm_match (p : List Char) (j : ℕ) : Bool :=
  day2 (p.getD j ' ') (p.getD (j + 1) ' ') &&
  month2 (p.getD (j + 2) ' ') (p.getD (j + 3) ' ') &&
  year_prefix2 (p.getD (j + 4) ' ') (p.getD (j + 5) ' ')
    (p.getD (j + 6) ' ') (p.getD (j + 7) ' ')

/-- `PatternDetector.detect_date_patterns`, paired with its appended
messages.  `current_year` (`datetime.now().year`) is an explicit parameter
of the embedding. -/
def detect_date_patterns (current_year : ℕ) (password : List Char) :
    DateResult × List String :=
  let n := password.length
  let yearPos := re_scan 4 (fun j =>
    year_match (password.getD j ' ') (password.getD (j + 1) ' ')
      (password.getD (j + 2) ' ') (password.getD (j + 3) ' ')) n (n + 1) 0
  let yearsF := yearPos.filterMap (fun j =>
    let year := four_digit_val (password.getD j ' ') (password.getD (j + 1) ' ')
      (password.getD (j + 2) ' ') (password.getD (j + 3) ' ')
    if 1900 ≤ year ∧ year ≤ current_year + 10 then
      some ({ type := "year", value_year := some year, value_str := none,
              position := j } : DateFinding)
    else none)
  let mmddF := (re_scan 8 (mmdd_match password) n (n + 1) 0).map (fun j =>
    ({ type := "full_date", value_year := none,
       value_str := some ((password.drop j).take 8), position := j } : DateFinding))
  let ddmmF := (re_scan 8 (ddmm_match password) n (n + 1) 0).map (fun j =>
    ({ type := "full_date", value_year := none,
       value_str := some ((password.drop j).take 8), position := j } : DateFinding))
  let dates_found := yearsF ++ mmddF ++ ddmmF
  ({ found := decide (0 < dates_found.length)
     dates := dates_found
     count := dates_found.length },
   dates_found.map (fun f =>
     match f.value_year, f.value_str with
     | some y, _ => "Year detected: " ++ toString y
     | _, some s => "Date pattern: " ++ String.mk s
     | _, _ => ""))

/-- One entry of the `found_words` list of `detect_common_words`. -/
structure WordFinding where
  word : List Char
  position : ℕ
deriving DecidableEq

/-- The dictionary returned by `detect_common_words`. -/
structure WordsResult where
  found : Bool
  words : List WordFinding
  count : ℕ
deriving DecidableEq

/-- `PatternDetector.detect_common_words`, paired with its appended
messages. -/
def detect_common_words (password : List Char) : WordsResult × List String :=
  let password_lower := password.map Char.toLower
  let found_words := COMMON_PATTERNS.filterMap (fun word =>
    if containsSub word password_lower then
      some ({ word := word, position := indexOfSub word password_lower } : WordFinding)
    else none)
  ({ found := decide (0 < found_words.length)
     words := found_words
     count := found_words.length },
   found_words.map (fun f => "Common word: " ++ String.mk f.word))

/-- The dictionary returned by `analyze_character_patterns` on a non-empty
password. -/
structure CharPatterns where
  starts_with_uppercase : Bool
  ends_with_digit : Bool
  ends_with_special : Bool
  follows_common_structure : Bool
  digits_clustered : Bool
  specials_clustered : Bool
deriving DecidableEq

/-- `PatternDetector.analyze_character_patterns`, paired with its appended
messages.  The empty password returns the *empty* dictionary, modelled as
`none`.  `password[1:-2]` is indices `1 .. len-3`; the clustering tests
`max(pos) - min(pos) < len(password) / 2` use Python true division, which
over integers is equivalent to `2 * (max - min) < len`; the position lists
are ascending, so their min/max are head/last. -/
def analyze_character_patterns (password : List Char) :
    Option CharPatterns × List String :=
  if password.length = 0 then (none, [])
  else
    let starts_with_upper := (password.getD 0 ' ').isUpper
    let ends_with_digit := (password.getD (password.length - 1) ' ').isDigit
    let ends_with_special := !(password.getD (password.length - 1) ' ').isAlphanum
    let follows_common_structure := starts_with_upper &&
      ((password.take (password.length - 2)).drop 1).any Char.isLower &&
      (ends_with_digit || ends_with_special)
    let digit_positions := (List.range password.length).filter
      (fun i => (password.getD i ' ').isDigit)
    let special_positions := (List.range password.length).filter
      (fun i => !(password.getD i ' ').isAlphanum)
    let digits_clustered := decide (1 < digit_positions.length) &&
      decide (2 * (digit_positions.getLastD 0 - digit_positions.headD 0) < password.length)
    let specials_clustered := decide (1 < special_positions.length) &&
      decide (2 * (special_positions.getLastD 0 - special_positions.headD 0) < password.length)
    (some { starts_with_uppercase := starts_with_upper
            ends_with_digit := ends_with_digit
            ends_with_special := ends_with_special
            follows_common_structure := follows_common_structure
            digits_clustered := digits_clustered
            specials_clustered := specials_clustered },
     if follows_common_structure then
       ["Follows common structure: Upper+lower+digits/special"]
     else [])

/-- `PatternDetector._calculate_pattern_score`: the six capped category
contributions, capped at 100. -/
def calculate_pattern_score (kb : KeyboardResult) (sq : SequentialResult)
    (rp : RepetitionResult) (lt : LeetResult) (dt : DateResult)
    (cw : WordsResult) : ℕ :=
  min 100
    ((if kb.found then min 20 (kb.count * 10) else 0) +
     (if sq.found then min 20 (sq.count * 8) else 0) +
     (if rp.found then min 15 (rp.count * 7) else 0) +
     (if lt.found then min 10 (lt.leet_score * 3) else 0) +
     (if dt.found then min 15 (dt.count * 10) else 0) +
     (if cw.found then min 20 (cw.count * 15) else 0))

/-- `PatternDetector._generate_warnings`.  The last test subscripts
`results['character_patterns']['follows_common_structure']`; when
`analyze_character_patterns` returned the empty dictionary (empty password)
this raises `KeyError`, modelled as `Except.error`. -/
def generate_warnings (kb : KeyboardResult) (sq : SequentialResult)
    (rp : RepetitionResult) (lt : LeetResult) (dt : DateResult)
    (cw : WordsResult) (cp : Option CharPatterns) :
    Except String (List String) :=
  match cp with
  | none => .error "KeyError: 'follows_common_structure'"
  | some c => .ok
      ((if kb.found then ["⚠️ Contains keyboard pattern sequences"] else []) ++
       (if sq.found then ["⚠️ Contains sequential characters (abc, 123)"] else []) ++
       (if rp.found then ["⚠️ Contains repeated characters or sequences"] else []) ++
       (if lt.found then ["⚠️ Uses predictable leetspeak substitutions"] else []) ++
       (if dt.found then ["⚠️ Contains date or year information"] else []) ++
       (if cw.found then ["⚠️ Based on common password words"] else []) ++
       (if c.follows_common_structure then
         ["⚠️ Follows predictable password structure"] else []))

/-- The dictionary returned by `detect_all_patterns`. -/
structure PatternResults where
  keyboard_patterns : KeyboardResult
  sequential_patterns : SequentialResult
  repetition_patterns : RepetitionResult
  leet_speak : LeetResult
  date_patterns : DateResult
  common_words : WordsResult
  character_patterns : Option CharPatterns
  overall_score : ℕ
  pattern_count : ℕ
  warnings : List String
deriving DecidableEq

/-- `PatternDetector.detect_all_patterns`: runs the seven detectors,
computes the overall score, `pattern_count = len(self.detected_patterns)`,
and the warnings.  An uncaught `KeyError` from `_generate_warnings`
propagates out of the call, hence the `Except`. -/
def detect_all_patterns (current_year : ℕ) (password : List Char) :
    Except String PatternResults :=
  let kb := (detect_keyboard_patterns password).1
  let sq := (detect_sequential_patterns password).1
  let rp := (detect_repetition_patterns password).1
  let lt := (detect_leet_speak password).1
  let dt := (detect_date_patterns current_year password).1
  let cw := (detect_common_words password).1
  let cp := (analyze_character_patterns password).1
  let pattern_score := calculate_pattern_score kb sq rp lt dt cw
  match generate_warnings kb sq rp lt dt cw cp with
  | .error e => .error e
  | .ok ws => .ok
      { keyboard_patterns := kb, sequential_patterns := sq,
        repetition_patterns := rp, leet_speak := lt, date_patterns := dt,
        common_words := cw, character_patterns := cp,
        overall_score := pattern_score,
        pattern_count :=
          ((detect_keyboard_patterns password).2 ++
           (detect_sequential_patterns password).2 ++
           (detect_repetition_patterns password).2 ++
           (detect_leet_speak password).2 ++
           (detect_date_patterns current_year password).2 ++
           (detect_common_words password).2 ++
           (analyze_character_patterns password).2).length,
        warnings := ws }

/-! ## Helper lemmas -/

theorem round2_nonneg {x : ℝ} (hx : 0 ≤ x) : 0 ≤ round2 x := by
  unfold round2
  apply div_nonneg _ (by norm_num)
  have h : (0 : ℤ) ≤ round (100 * x) := by
    rw [round_eq]
    exact Int.le_floor.mpr (by push_cast; linarith)
  exact_mod_cast h

theorem round2_zero : round2 0 = 0 := by
  unfold round2
  norm_num

theorem calculate_pool_size_pos (p : List Char) (h : p ≠ []) :
    1 ≤ calculate_pool_size p := by
  obtain ⟨c, rest, rfl⟩ : ∃ c rest, p = c :: rest := by
    cases p with
    | nil => exact absurd rfl h
    | cons c rest => exact ⟨c, rest, rfl⟩
  unfold calculate_pool_size LOWERCASE_POOL UPPERCASE_POOL DIGITS_POOL SPECIAL_POOL
  by_cases h1 : (c :: rest).any Char.isLower
  · rw [if_pos h1]; omega
  · rw [if_neg h1]
    by_cases h2 : (c :: rest).any Char.isUpper
    · rw [if_pos h2]; omega
    · rw [if_neg h2]
      by_cases h3 : (c :: rest).any Char.isDigit
      · rw [if_pos h3]; omega
      · rw [if_neg h3]
        rw [if_pos]
        · omega
        · -- the head character is in none of the first three classes, so it
          -- matches `[^a-zA-Z0-9]`
          simp only [List.any_eq_true, not_exists, not_and] at h1 h2 h3
          have hc1 := h1 c (List.mem_cons_self c rest)
          have hc2 := h2 c (List.mem_cons_self c rest)
          have hc3 := h3 c (List.mem_cons_self c rest)
          refine List.any_eq_true.mpr ⟨c, List.mem_cons_self c rest, ?_⟩
          simp only [Char.isAlphanum, Char.isAlpha] at *
          cases hl : c.isLower <;> cases hu : c.isUpper <;> cases hd : c.isDigit <;>
            simp_all

/-! ## Claim theorems -/

/-- C1: the spec requires that the empty password raise no fatal error and
yield a neutral report.  The seven detectors do all return empty findings
and the aggregate score is 0, but `detect_all_patterns("")` then *raises
`KeyError`*: `analyze_character_patterns` returns the empty dictionary and
`_generate_warnings` subscripts it unconditionally.  This theorem records
both the neutral sub-results and the raised error. -/
theorem empty_password_key_error (cy : ℕ) :
    (detect_keyboard_patterns []).1.found = false ∧
    (detect_sequential_patterns []).1.found = false ∧
    (detect_repetition_patterns []).1.found = false ∧
    (detect_leet_speak []).1.found = false ∧
    (detect_date_patterns cy []).1.found = false ∧
    (detect_common_words []).1.found = false ∧
    (analyze_character_patterns []).1 = none ∧
    detect_all_patterns cy [] =
      Except.error "KeyError: 'follows_common_structure'" :=
  ⟨rfl, rfl, rfl, rfl, rfl, rfl, rfl, rfl⟩

/-- C2: whenever `detect_all_patterns` returns a result, its `overall_score`
satisfies `0 ≤ overall_score ≤ 100` (`_calculate_pattern_score` caps the sum
of non-negative capped category contributions at 100). -/
theorem overall_score_bounds (cy : ℕ) (p : List Char) (r : PatternResults)
    (h : detect_all_patterns cy p = Except.ok r) :
    0 ≤ r.overall_score ∧ r.overall_score ≤ 100 := by
  simp only [detect_all_patterns] at h
  revert h
  cases hg : generate_warnings (detect_keyboard_patterns p).1
      (detect_sequential_patterns p).1 (detect_repetition_patterns p).1
      (detect_leet_speak p).1 (detect_date_patterns cy p).1
      (detect_common_words p).1 (analyze_character_patterns p).1 with
  | error e => exact fun h => Except.noConfusion h
  | ok ws =>
    intro h
    rw [← Except.ok.inj h]
    exact ⟨Nat.zero_le _, Nat.min_le_left _ _⟩

/-- C2 witness at a concrete password. -/
theorem overall_score_bounds_witness :
    ∃ r, detect_all_patterns 2026 ['a', 'b', 'c'] = Except.ok r ∧
      0 ≤ r.overall_score ∧ r.overall_score ≤ 100 :=
  ⟨_, rfl, overall_score_bounds 2026 ['a', 'b', 'c'] _ rfl⟩

/-- C3: for every non-empty password, `combinations` equals
`pool_size ^ length` exactly (arbitrary-precision `Nat` exponentiation, so
no fixed-width overflow at any length), `entropy_bits ≥ 0`, and the
`length` key is present. -/
theorem password_entropy_exact (p : List Char) (h : p ≠ []) :
    (calculate_password_entropy p).combinations =
      (calculate_password_entropy p).pool_size ^ p.length ∧
    0 ≤ (calculate_password_entropy p).entropy_bits ∧
    (calculate_password_entropy p).length = some p.length := by
  unfold calculate_password_entropy
  rw [if_neg h]
  refine ⟨rfl, ?_, rfl⟩
  apply round2_nonneg
  apply mul_nonneg (Nat.cast_nonneg _)
  apply Real.logb_nonneg one_lt_two
  exact_mod_cast calculate_pool_size_pos p h

/-- C3 witness at a concrete password. -/
theorem password_entropy_exact_witness :
    (['a'] : List Char) ≠ [] ∧
    (calculate_password_entropy ['a']).combinations =
      (calculate_password_entropy ['a']).pool_size ^ (['a'] : List Char).length ∧
    0 ≤ (calculate_password_entropy ['a']).entropy_bits ∧
    (calculate_password_entropy ['a']).length = some (['a'] : List Char).length :=
  ⟨by decide, password_entropy_exact ['a'] (by decide)⟩

/-- C4 counterexample: the claim says all four fields, `length` included,
are present and zero for the empty password, but the empty-password branch
of `calculate_password_entropy` returns a dictionary without the `length`
key (`none` here), so the `length` field is not the present value `0`. -/
theorem password_entropy_empty_length_missing :
    (calculate_password_entropy []).length ≠ some 0 ∧
    (calculate_password_entropy []).length = none := by
  constructor
  · unfold calculate_password_entropy
    rw [if_pos rfl]
    simp
  · rfl

/-- C4 amended: for the empty password `calculate_password_entropy` returns
`pool_size = 0`, `entropy_bits = 0.0`, `combinations = 0`, and *no*
`length` key (the empty branch's dictionary omits it). -/
theorem password_entropy_empty :
    (calculate_password_entropy []).pool_size = 0 ∧
    (calculate_password_entropy []).entropy_bits = 0 ∧
    (calculate_password_entropy []).combinations = 0 ∧
    (calculate_password_entropy []).length = none :=
  ⟨rfl, rfl, rfl, rfl⟩

/-- C5: the five strength bands of `get_entropy_strength`, inclusive on
each band's lower bound, together with the eight boundary evaluations from
the spec. -/
theorem entropy_strength_bands :
    (∀ v : ℝ, v < 28 → get_entropy_strength v = "Very Weak") ∧
    (∀ v : ℝ, 28 ≤ v → v < 36 → get_entropy_strength v = "Weak") ∧
    (∀ v : ℝ, 36 ≤ v → v < 60 → get_entropy_strength v = "Reasonable") ∧
    (∀ v : ℝ, 60 ≤ v → v < 128 → get_entropy_strength v = "Strong") ∧
    (∀ v : ℝ, 128 ≤ v → get_entropy_strength v = "Very Strong") ∧
    get_entropy_strength 27.9 = "Very Weak" ∧
    get_entropy_strength 28 = "Weak" ∧
    get_entropy_strength 35.9 = "Weak" ∧
    get_entropy_strength 36 = "Reasonable" ∧
    get_entropy_strength 59.9 = "Reasonable" ∧
    get_entropy_strength 60 = "Strong" ∧
    get_entropy_strength 127.9 = "Strong" ∧
    get_entropy_strength 128 = "Very Strong" := by
  have b1 : ∀ v : ℝ, v < 28 → get_entropy_strength v = "Very Weak" := by
    intro v h
    unfold get_entropy_strength
    rw [if_pos h]
  have b2 : ∀ v : ℝ, 28 ≤ v → v < 36 → get_entropy_strength v = "Weak" := by
    intro v h1 h2
    unfold get_entropy_strength
    rw [if_neg (not_lt.mpr h1), if_pos h2]
  have b3 : ∀ v : ℝ, 36 ≤ v → v < 60 → get_entropy_strength v = "Reasonable" := by
    intro v h1 h2
    unfold get_entropy_strength
    rw [if_neg (not_lt.mpr (le_trans (by norm_num) h1)),
      if_neg (not_lt.mpr h1), if_pos h2]
  have b4 : ∀ v : ℝ, 60 ≤ v → v < 128 → get_entropy_strength v = "Strong" := by
    intro v h1 h2
    unfold get_entropy_strength
    rw [if_neg (not_lt.mpr (le_trans (by norm_num) h1)),
      if_neg (not_lt.mpr (le_trans (by norm_num) h1)),
      if_neg (not_lt.mpr h1), if_pos h2]
  have b5 : ∀ v : ℝ, 128 ≤ v → get_entropy_strength v = "Very Strong" := by
    intro v h1
    unfold get_entropy_strength
    rw [if_neg (not_lt.mpr (le_trans (by norm_num) h1)),
      if_neg (not_lt.mpr (le_trans (by norm_num) h1)),
      if_neg (not_lt.mpr (le_trans (by norm_num) h1)),
      if_neg (not_lt.mpr h1)]
  exact ⟨b1, b2, b3, b4, b5,
    b1 _ (by norm_num), b2 _ (by norm_num) (by norm_num),
    b2 _ (by norm_num) (by norm_num), b3 _ (by norm_num) (by norm_num),
    b3 _ (by norm_num) (by norm_num), b4 _ (by norm_num) (by norm_num),
    b4 _ (by norm_num) (by norm_num), b5 _ (by norm_num)⟩

/-- C5 witness at a concrete entropy value. -/
theorem entropy_strength_bands_witness :
    (30 : ℝ) < 36 ∧ get_entropy_strength 30 = "Weak" :=
  ⟨by norm_num, entropy_strength_bands.2.1 30 (by norm_num) (by norm_num)⟩

/-- C6: `compare_passwords` returns one report per input password, ordered
by `password_entropy` non-increasing (Python `list.sort(key, reverse=True)`
is a total stable sort on the key). -/
theorem compare_passwords_sorted (pwds : List (List Char)) :
    (compare_passwords pwds).length = pwds.length ∧
    List.Pairwise (fun a b => b.password_entropy ≤ a.password_entropy)
      (compare_passwords pwds) := by
  constructor
  · unfold compare_passwords
    rw [(List.mergeSort_perm _ _).length_eq, List.length_map]
  · have htrans : ∀ a b c : AnalyzeReport,
        decide (b.password_entropy ≤ a.password_entropy) = true →
        decide (c.password_entropy ≤ b.password_entropy) = true →
        decide (c.password_entropy ≤ a.password_entropy) = true := fun a b c hab hbc =>
      decide_eq_true (le_trans (of_decide_eq_true hbc) (of_decide_eq_true hab))
    have htot : ∀ a b : AnalyzeReport,
        (decide (b.password_entropy ≤ a.password_entropy) ||
         decide (a.password_entropy ≤ b.password_entropy)) = true := by
      intro a b
      rcases le_total b.password_entropy a.password_entropy with h | h
      · simp [decide_eq_true h]
      · simp [decide_eq_true h]
    unfold compare_passwords
    have hs := List.sorted_mergeSort (htrans · · ·) htot
      (pwds.map fun pwd =>
        { analyze_complete pwd with password_preview := some (password_preview_of pwd) })
    exact List.Pairwise.imp (fun h => of_decide_eq_true h) hs

/-- C7: every report produced by `compare_passwords` carries the preview
`pwd[:3] + '*' * (len(pwd) - 3)` of one of the input passwords; for
passwords of length ≤ 3 the preview is the password itself with no mask
characters (`'*' * n` is empty for `n ≤ 0`). -/
theorem compare_passwords_preview (pwds : List (List Char)) (r : AnalyzeReport)
    (h : r ∈ compare_passwords pwds) :
    ∃ p, p ∈ pwds ∧
      r.password_preview = some (p.take 3 ++ List.replicate (p.length - 3) '*') ∧
      (p.length ≤ 3 → r.password_preview = some p) := by
  unfold compare_passwords at h
  rw [(List.mergeSort_perm _ _).mem_iff, List.mem_map] at h
  obtain ⟨p, hp, hr⟩ := h
  refine ⟨p, hp, ?_, ?_⟩
  · rw [← hr]
    rfl
  · intro hlen
    rw [← hr]
    show some (password_preview_of p) = some p
    unfold password_preview_of
    rw [List.take_of_length_le hlen, Nat.sub_eq_zero_of_le hlen,
      List.replicate_zero, List.append_nil]

/-- C7 witness at a concrete password list. -/
theorem compare_passwords_preview_witness :
    ∃ r, r ∈ compare_passwords [['a', 'b']] ∧
      ∃ p, p ∈ [(['a', 'b'] : List Char)] ∧
        r.password_preview = some (p.take 3 ++ List.replicate (p.length - 3) '*') ∧
        (p.length ≤ 3 → r.password_preview = some p) := by
  have hmem : ({ analyze_complete ['a', 'b'] with
      password_preview := some (password_preview_of ['a', 'b']) } : AnalyzeReport) ∈
      compare_passwords [['a', 'b']] := by
    unfold compare_passwords
    rw [List.map_cons, List.map_nil, List.mergeSort_singleton]
    exact List.mem_singleton.mpr rfl
  exact ⟨_, hmem, compare_passwords_preview _ _ hmem⟩

/-- A single character occurring in a string is a substring of it. -/
theorem mem_containsSub {c : Char} : ∀ {l : List Char},
    c ∈ l → containsSub [c] l = true := by
  intro l
  induction l with
  | nil => intro h; exact absurd h (List.not_mem_nil c)
  | cons x xs ih =>
    intro h
    unfold containsSub
    rw [List.tails_cons, List.any_cons]
    rcases List.mem_cons.mp h with rfl | hxs
    · simp [List.isPrefixOf]
    · have hx := ih hxs
      unfold containsSub at hx
      simp [hx]

/-- C10: every password containing the letter `p` (case-insensitively)
matches the single-character `KEYBOARD_WALKS` entry `'p'`, so
`detect_keyboard_patterns` reports a keyboard-walk finding, `found` is
true, and `detect_all_patterns` succeeds with `overall_score ≥ 10`
(the keyboard category alone contributes `min(20, count*10) ≥ 10`). -/
theorem letter_p_keyboard_walk (cy : ℕ) (p : List Char)
    (h : 'p' ∈ p.map Char.toLower) :
    (detect_keyboard_patterns p).1.found = true ∧
    ({ type := "keyboard_walk", pattern := ['p'], length := 1,
       position := none } : KeyboardFinding) ∈ (detect_keyboard_patterns p).1.patterns ∧
    ∃ r, detect_all_patterns cy p = Except.ok r ∧ 10 ≤ r.overall_score := by
  have hw : containsSub ['p'] (p.map Char.toLower) = true := mem_containsSub h
  have hfind : ({ type := "keyboard_walk", pattern := ['p'], length := 1,
                  position := none } : KeyboardFinding) ∈
      walk_findings (p.map Char.toLower) := by
    unfold walk_findings
    refine List.mem_filterMap.mpr ⟨['p'], by decide, ?_⟩
    simp [hw]
  have hmem : ({ type := "keyboard_walk", pattern := ['p'], length := 1,
                 position := none } : KeyboardFinding) ∈
      (detect_keyboard_patterns p).1.patterns :=
    List.mem_append_left _ (List.mem_append_right _ hfind)
  have hpos : 0 < (detect_keyboard_patterns p).1.patterns.length :=
    List.length_pos.mpr (List.ne_nil_of_mem hmem)
  have hfound : (detect_keyboard_patterns p).1.found = true := decide_eq_true hpos
  have hp_ne : p ≠ [] := by
    rintro rfl
    simp at h
  have hcp : ∃ c, (analyze_character_patterns p).1 = some c := by
    unfold analyze_character_patterns
    rw [if_neg (List.length_pos.mpr hp_ne).ne']
    exact ⟨_, rfl⟩
  obtain ⟨cpat, hcp⟩ := hcp
  have hscore : 10 ≤ calculate_pattern_score (detect_keyboard_patterns p).1
      (detect_sequential_patterns p).1 (detect_repetition_patterns p).1
      (detect_leet_speak p).1 (detect_date_patterns cy p).1
      (detect_common_words p).1 := by
    unfold calculate_pattern_score
    rw [if_pos hfound]
    have h10 : 10 ≤ min 20 ((detect_keyboard_patterns p).1.count * 10) := by
      refine le_min (by norm_num) ?_
      have : 1 ≤ (detect_keyboard_patterns p).1.count := hpos
      omega
    omega
  refine ⟨hfound, hmem, ?_⟩
  simp only [detect_all_patterns]
  rw [hcp]
  exact ⟨_, rfl, hscore⟩

/-- C10 witness at a concrete password. -/
theorem letter_p_keyboard_walk_witness :
    'p' ∈ (['p'] : List Char).map Char.toLower ∧
    ((detect_keyboard_patterns ['p']).1.found = true ∧
     ({ type := "keyboard_walk", pattern := ['p'], length := 1,
        position := none } : KeyboardFinding) ∈ (detect_keyboard_patterns ['p']).1.patterns ∧
     ∃ r, detect_all_patterns 2026 ['p'] = Except.ok r ∧ 10 ≤ r.overall_score) :=
  ⟨by decide, letter_p_keyboard_walk 2026 ['p'] (by decide)⟩

/-- Shannon entropy of a one-repeated-character password is zero: the only
probability is `k/k = 1` and `log2 1 = 0`. -/
theorem shannon_replicate_zero (c : Char) (k : ℕ) (hk : 1 ≤ k) :
    calculate_shannon_entropy (List.replicate k c) = 0 := by
  have hne : List.replicate k c ≠ [] := by
    simp only [ne_eq, List.replicate_eq_nil_iff]
    omega
  unfold calculate_shannon_entropy
  rw [if_neg hne]
  have hded : (List.replicate k c).dedup = [c] := by
    induction k with
    | zero => omega
    | succ n ih =>
      cases n with
      | zero => rw [List.replicate_one, List.dedup_cons_of_not_mem (by simp), List.dedup_nil]
      | succ m =>
        rw [List.replicate_succ, List.dedup_cons_of_mem (by simp [List.mem_replicate]),
          ih (by omega) (by simp only [ne_eq, List.replicate_eq_nil_iff]; omega)]
  rw [hded]
  have hcnt : (List.replicate k c).count c = k := List.count_replicate_self c k
  have hlen : (List.replicate k c).length = k := List.length_replicate k c
  rw [List.map_cons, List.map_nil, hcnt, hlen]
  have hk0 : (k : ℝ) ≠ 0 := Nat.cast_ne_zero.mpr (by omega)
  rw [div_self hk0]
  simp [round2_zero]

/-- Shannon entropy of an all-distinct password of length `n` is
`round(log2 n, 2)`: each probability is `1/n`. -/
theorem shannon_of_nodup (p : List Char) (h : p ≠ []) (hd : p.Nodup) :
    calculate_shannon_entropy p = round2 (Real.logb 2 p.length) := by
  unfold calculate_shannon_entropy
  rw [if_neg h]
  congr 1
  have hn0 : (p.length : ℝ) ≠ 0 :=
    Nat.cast_ne_zero.mpr (List.length_pos.mpr h).ne'
  have hmap : p.dedup.map (fun c =>
      ((p.count c : ℝ) / p.length) * Real.logb 2 ((p.count c : ℝ) / p.length)) =
      List.replicate p.length
        (((1 : ℝ) / p.length) * Real.logb 2 ((1 : ℝ) / p.length)) := by
    rw [hd.dedup]
    rw [List.map_congr_left (g := fun _ =>
      ((1 : ℝ) / p.length) * Real.logb 2 ((1 : ℝ) / p.length)) ?_]
    · exact List.map_const' p _
    · intro c hc
      rw [List.count_eq_one_of_mem hd hc]
      norm_num
  rw [hmap, List.sum_replicate, nsmul_eq_mul]
  rw [one_div, Real.logb_inv]
  field_simp

/-- C8 counterexample: the source rounds the Shannon entropy to two
decimals, so for the all-distinct password `"abc"` it returns
`round(log2 3, 2) = 1.58`, which is not `log2 3` (since
`1.58 < log2 3 < 1.585`). -/
theorem shannon_abc_not_log2_three :
    calculate_shannon_entropy ['a', 'b', 'c'] ≠ Real.logb 2 3 := by
  have hlog2 : (0 : ℝ) < Real.log 2 := Real.log_pos (by norm_num)
  have hlow : (158 : ℝ) / 100 < Real.logb 2 3 := by
    rw [Real.logb, lt_div_iff₀ hlog2]
    have h2 : Real.log (2 ^ 158 : ℝ) < Real.log (3 ^ 100 : ℝ) :=
      (Real.log_lt_log_iff (by positivity) (by positivity)).mpr (by norm_num)
    rw [Real.log_pow, Real.log_pow] at h2
    push_cast at h2
    linarith
  have hup : Real.logb 2 3 < (317 : ℝ) / 200 := by
    rw [Real.logb, div_lt_iff₀ hlog2]
    have h2 : Real.log (3 ^ 200 : ℝ) < Real.log (2 ^ 317 : ℝ) :=
      (Real.log_lt_log_iff (by positivity) (by positivity)).mpr (by norm_num)
    rw [Real.log_pow, Real.log_pow] at h2
    push_cast at h2
    linarith
  have hround : round (100 * Real.logb 2 3) = 158 := by
    rw [round_eq, Int.floor_eq_iff]
    constructor
    · push_cast
      linarith
    · push_cast
      linarith
  have habc : calculate_shannon_entropy ['a', 'b', 'c'] = (158 : ℝ) / 100 := by
    have h1 := shannon_of_nodup ['a', 'b', 'c'] (by decide) (by decide)
    have h3 : ((['a', 'b', 'c'] : List Char).length : ℝ) = 3 := by norm_num
    rw [h1, h3]
    unfold round2
    rw [hround]
    norm_num
  rw [habc]
  exact fun hcontra => absurd (hcontra ▸ hlow) (lt_irrefl _)

/-- C8 amended: `calculate_shannon_entropy` returns `0.0` for the empty
password and for any one-repeated-character password (in particular
`"aaaa"`), and for an all-distinct password of length `n` it returns
`round(log2 n, 2)` — `log2 n` rounded to two decimals, not `log2 n`
exactly.  In general it computes `round(−Σ p·log2 p, 2)` over the
password's own character frequencies, as in the definition above. -/
theorem shannon_entropy_values :
    calculate_shannon_entropy [] = 0 ∧
    (∀ (c : Char) (k : ℕ), 1 ≤ k →
      calculate_shannon_entropy (List.replicate k c) = 0) ∧
    calculate_shannon_entropy ['a', 'a', 'a', 'a'] = 0 ∧
    (∀ p : List Char, p ≠ [] → p.Nodup →
      calculate_shannon_entropy p = round2 (Real.logb 2 p.length)) := by
  refine ⟨?_, fun c k hk => shannon_replicate_zero c k hk, ?_, fun p h hd =>
    shannon_of_nodup p h hd⟩
  · unfold calculate_shannon_entropy
    rw [if_pos rfl]
  · have h4 := shannon_replicate_zero 'a' 4 (by norm_num)
    simpa using h4

/-- C8 witness at concrete passwords. -/
theorem shannon_entropy_values_witness :
    1 ≤ 4 ∧ calculate_shannon_entropy (List.replicate 4 'x') = 0 ∧
    (['a', 'b'] : List Char) ≠ [] ∧
    calculate_shannon_entropy ['a', 'b'] =
      round2 (Real.logb 2 (['a', 'b'] : List Char).length) :=
  ⟨by norm_num, shannon_entropy_values.2.1 'x' 4 (by norm_num), by decide,
    shannon_entropy_values.2.2.2 ['a', 'b'] (by decide) (by decide)⟩

/-! ### While-loop lemmas for the sequence-extension scans -/

theorem while_ext_ge (cond : ℕ → Bool) :
    ∀ fuel k, k ≤ while_ext cond fuel k := by
  intro fuel
  induction fuel with
  | zero => intro k; exact le_refl k
  | succ n ih =>
    intro k
    by_cases hc : cond k
    · simp only [while_ext, if_pos hc]
      exact le_trans (Nat.le_succ k) (ih (k + 1))
    · simp only [while_ext, if_neg hc]
      exact le_refl k

theorem while_ext_le (cond : ℕ → Bool) :
    ∀ fuel k, while_ext cond fuel k ≤ k + fuel := by
  intro fuel
  induction fuel with
  | zero => intro k; simp [while_ext]
  | succ n ih =>
    intro k
    by_cases hc : cond k
    · simp only [while_ext, if_pos hc]
      exact le_trans (ih (k + 1)) (by omega)
    · simp only [while_ext, if_neg hc]
      omega

theorem while_ext_cond_of_lt (cond : ℕ → Bool) :
    ∀ fuel k m, k ≤ m → m < while_ext cond fuel k → cond m = true := by
  intro fuel
  induction fuel with
  | zero =>
    intro k m hkm hlt
    simp only [while_ext] at hlt
    omega
  | succ n ih =>
    intro k m hkm hlt
    by_cases hc : cond k
    · simp only [while_ext, if_pos hc] at hlt
      rcases eq_or_lt_of_le hkm with rfl | hlt2
      · exact hc
      · exact ih (k + 1) m hlt2 hlt
    · simp only [while_ext, if_neg hc] at hlt
      omega

theorem while_ext_stop (cond : ℕ → Bool) :
    ∀ fuel k, while_ext cond fuel k < k + fuel →
      cond (while_ext cond fuel k) = false := by
  intro fuel
  induction fuel with
  | zero =>
    intro k h
    simp only [while_ext] at h
    omega
  | succ n ih =>
    intro k h
    by_cases hc : cond k
    · simp only [while_ext, if_pos hc] at h ⊢
      exact ih (k + 1) (by omega)
    · simp only [while_ext, if_neg hc]
      exact Bool.eq_false_iff.mpr hc

/-- Invariants of the recorded forward-numeric run from position `i`: every
digit in the run is the start digit plus its offset, the run has length at
least 3, it fits in the password, and it is maximal (it ends at the end of
the password or where the continuation test fails). -/
theorem numeric_fwd_run_spec (p : List Char) (i : ℕ)
    (hi : i + 2 < p.length)
    (hd1 : digitVal (p.getD (i + 1) ' ') = digitVal (p.getD i ' ') + 1)
    (hd2 : digitVal (p.getD (i + 2) ' ') = digitVal (p.getD (i + 1) ' ') + 1) :
    (∀ a, a < numeric_fwd_len p i →
      digitVal (p.getD (i + a) ' ') = digitVal (p.getD i ' ') + a) ∧
    3 ≤ numeric_fwd_len p i ∧ i + numeric_fwd_len p i ≤ p.length ∧
    (i + numeric_fwd_len p i = p.length ∨
      numeric_fwd_cont p i (numeric_fwd_len p i) = false) := by
  have hge : 3 ≤ numeric_fwd_len p i := while_ext_ge _ _ _
  have hle : numeric_fwd_len p i ≤ 3 + (p.length - (i + 3)) := while_ext_le _ _ _
  have hcond : ∀ m, 3 ≤ m → m < numeric_fwd_len p i →
      numeric_fwd_cont p i m = true :=
    fun m h3 hm => while_ext_cond_of_lt _ _ _ _ h3 hm
  have hval : ∀ a, a < numeric_fwd_len p i →
      digitVal (p.getD (i + a) ' ') = digitVal (p.getD i ' ') + a := by
    intro a ha
    match a with
    | 0 => simp
    | 1 => simpa using hd1
    | 2 =>
      rw [hd2, hd1]
      push_cast
      ring
    | m + 3 =>
      have hc := hcond (m + 3) (by omega) ha
      unfold numeric_fwd_cont at hc
      rw [Bool.and_eq_true] at hc
      exact of_decide_eq_true hc.2
  refine ⟨hval, hge, by omega, ?_⟩
  rcases lt_or_eq_of_le hle with hlt | heq
  · exact Or.inr (while_ext_stop _ _ _ hlt)
  · exact Or.inl (by omega)

/-- Invariants of the recorded backward-numeric run from position `i`,
mirror image of `numeric_fwd_run_spec`. -/
theorem numeric_bwd_run_spec (p : List Char) (i : ℕ)
    (hi : i + 2 < p.length)
    (hd1 : digitVal (p.getD (i + 1) ' ') = digitVal (p.getD i ' ') - 1)
    (hd2 : digitVal (p.getD (i + 2) ' ') = digitVal (p.getD (i + 1) ' ') - 1) :
    (∀ a, a < numeric_bwd_len p i →
      digitVal (p.getD (i + a) ' ') = digitVal (p.getD i ' ') - a) ∧
    3 ≤ numeric_bwd_len p i ∧ i + numeric_bwd_len p i ≤ p.length ∧
    (i + numeric_bwd_len p i = p.length ∨
      numeric_bwd_cont p i (numeric_bwd_len p i) = false) := by
  have hge : 3 ≤ numeric_bwd_len p i := while_ext_ge _ _ _
  have hle : numeric_bwd_len p i ≤ 3 + (p.length - (i + 3)) := while_ext_le _ _ _
  have hcond : ∀ m, 3 ≤ m → m < numeric_bwd_len p i →
      numeric_bwd_cont p i m = true :=
    fun m h3 hm => while_ext_cond_of_lt _ _ _ _ h3 hm
  have hval : ∀ a, a < numeric_bwd_len p i →
      digitVal (p.getD (i + a) ' ') = digitVal (p.getD i ' ') - a := by
    intro a ha
    match a with
    | 0 => simp
    | 1 => simpa using hd1
    | 2 =>
      rw [hd2, hd1]
      push_cast
      ring
    | m + 3 =>
      have hc := hcond (m + 3) (by omega) ha
      unfold numeric_bwd_cont at hc
      rw [Bool.and_eq_true] at hc
      exact of_decide_eq_true hc.2
  refine ⟨hval, hge, by omega, ?_⟩
  rcases lt_or_eq_of_le hle with hlt | heq
  · exact Or.inr (while_ext_stop _ _ _ hlt)
  · exact Or.inl (by omega)

/-- C9: every `numeric_forward` finding of `detect_sequential_patterns` is a
run of consecutive *digit values* (so a `'9'` inside it is never followed by
`'0'`: that would need digit value 10), of length at least 3, recorded as
the maximal greedy extension: the run property holds throughout and the run
stops only at the end of the password or where the continuation test fails.
The mirror statement holds for `numeric_backward` findings. -/
theorem numeric_sequence_runs (p : List Char) (f : SeqFinding)
    (hf : f ∈ (detect_sequential_patterns p).1.sequences) :
    (f.type = "numeric_forward" →
      (∀ j, j + 1 < f.sequence.length →
        digitVal (f.sequence.getD (j + 1) ' ') =
          digitVal (f.sequence.getD j ' ') + 1) ∧
      (∀ j, j + 1 < f.sequence.length → f.sequence.getD j ' ' = '9' →
        f.sequence.getD (j + 1) ' ' ≠ '0') ∧
      3 ≤ f.length ∧ f.sequence = (p.drop f.position).take f.length ∧
      (f.position + f.length = p.length ∨
        numeric_fwd_cont p f.position f.length = false)) ∧
    (f.type = "numeric_backward" →
      (∀ j, j + 1 < f.sequence.length →
        digitVal (f.sequence.getD (j + 1) ' ') =
          digitVal (f.sequence.getD j ' ') - 1) ∧
      3 ≤ f.length ∧ f.sequence = (p.drop f.position).take f.length ∧
      (f.position + f.length = p.length ∨
        numeric_bwd_cont p f.position f.length = false)) := by
  simp only [detect_sequential_patterns] at hf
  rw [List.mem_append] at hf
  rcases hf with halpha | hnum
  · -- findings of the alphabetic loop carry an alphabetic type
    rw [List.mem_flatMap] at halpha
    obtain ⟨i, hi, hfi⟩ := halpha
    have htype : f.type = "alphabetic_forward" ∨ f.type = "alphabetic_backward" := by
      rw [List.mem_append] at hfi
      rcases hfi with h | h
      · split at h
        next => rw [List.mem_singleton] at h; subst h; left; rfl
        next => exact absurd h (List.not_mem_nil f)
      · split at h
        next => rw [List.mem_singleton] at h; subst h; right; rfl
        next => exact absurd h (List.not_mem_nil f)
    constructor
    · intro ht
      rw [ht] at htype
      rcases htype with h | h <;> exact absurd h (by decide)
    · intro ht
      rw [ht] at htype
      rcases htype with h | h <;> exact absurd h (by decide)
  · rw [List.mem_flatMap] at hnum
    obtain ⟨i, hi, hfi⟩ := hnum
    rw [List.mem_range] at hi
    split at hfi
    case isFalse => exact absurd hfi (List.not_mem_nil f)
    case isTrue hdig =>
      rw [List.mem_append] at hfi
      rcases hfi with hfwd | hbwd
      · split at hfwd
        case isFalse => exact absurd hfwd (List.not_mem_nil f)
        case isTrue hcondF =>
          rw [List.mem_singleton] at hfwd
          subst hfwd
          obtain ⟨hc1, hc2⟩ := hcondF
          have hi2 : i + 2 < p.length := by omega
          have spec := numeric_fwd_run_spec p i hi2 hc1 hc2
          constructor
          · intro _
            dsimp only
            have hlen : ((p.drop i).take (numeric_fwd_len p i)).length =
                numeric_fwd_len p i := by
              rw [List.length_take, List.length_drop]
              have := spec.2.2.1
              omega
            have hgd : ∀ j, j < numeric_fwd_len p i →
                ((p.drop i).take (numeric_fwd_len p i)).getD j ' ' =
                  p.getD (i + j) ' ' := by
              intro j hj
              rw [List.getD_eq_getElem?_getD, List.getElem?_take, if_pos hj,
                List.getElem?_drop, ← List.getD_eq_getElem?_getD]
            refine ⟨?_, ?_, spec.2.1, rfl, spec.2.2.2⟩
            · intro j hj
              rw [hlen] at hj
              rw [hgd (j + 1) (by omega), hgd j (by omega)]
              have v1 := spec.1 (j + 1) (by omega)
              have v0 := spec.1 j (by omega)
              push_cast at v0 v1 ⊢
              omega
            · intro j hj h9 h0
              rw [hlen] at hj
              rw [hgd j (by omega)] at h9
              rw [hgd (j + 1) (by omega)] at h0
              have v1 := spec.1 (j + 1) (by omega)
              have v0 := spec.1 j (by omega)
              rw [h9] at v0
              rw [h0] at v1
              have e9 : digitVal '9' = 9 := by decide
              have e0 : digitVal '0' = 0 := by decide
              rw [e9] at v0
              rw [e0] at v1
              push_cast at v0 v1
              omega
          · intro ht
            simp at ht
      · split at hbwd
        case isFalse => exact absurd hbwd (List.not_mem_nil f)
        case isTrue hcondB =>
          rw [List.mem_singleton] at hbwd
          subst hbwd
          obtain ⟨hc1, hc2⟩ := hcondB
          have hi2 : i + 2 < p.length := by omega
          have spec := numeric_bwd_run_spec p i hi2 hc1 hc2
          constructor
          · intro ht
            simp at ht
          · intro _
            dsimp only
            have hlen : ((p.drop i).take (numeric_bwd_len p i)).length =
                numeric_bwd_len p i := by
              rw [List.length_take, List.length_drop]
              have := spec.2.2.1
              omega
            have hgd : ∀ j, j < numeric_bwd_len p i →
                ((p.drop i).take (numeric_bwd_len p i)).getD j ' ' =
                  p.getD (i + j) ' ' := by
              intro j hj
              rw [List.getD_eq_getElem?_getD, List.getElem?_take, if_pos hj,
                List.getElem?_drop, ← List.getD_eq_getElem?_getD]
            refine ⟨?_, spec.2.1, rfl, spec.2.2.2⟩
            intro j hj
            rw [hlen] at hj
            rw [hgd (j + 1) (by omega), hgd j (by omega)]
            have v1 := spec.1 (j + 1) (by omega)
            have v0 := spec.1 j (by omega)
            push_cast at v0 v1 ⊢
            omega

/-- C9 witness: `"123"` yields the forward-numeric finding `123` with the
guaranteed run properties. -/
theorem numeric_sequence_runs_witness :
    ({ type := "numeric_forward", sequence := ['1', '2', '3'], length := 3,
       position := 0 } : SeqFinding) ∈
      (detect_sequential_patterns ['1', '2', '3']).1.sequences ∧
    3 ≤ ({ type := "numeric_forward", sequence := ['1', '2', '3'], length := 3,
           position := 0 } : SeqFinding).length :=
  ⟨by decide,
    ((numeric_sequence_runs ['1', '2', '3']
      { type := "numeric_forward", sequence := ['1', '2', '3'], length := 3,
        position := 0 } (by decide)).1 rfl).2.2.1⟩

end PasswordAnalyzer
